import Mathlib

/-!
Shallow embedding of the CoilMQ queue manager (`coilmq/queue.py`).

The `QueueManager` state (`_queues`, `_pending`, `_transaction_frames`) is
modelled with insertion-ordered association lists, matching Python `dict`
and `defaultdict` semantics (a `defaultdict` item access creates the missing
entry; a containment test does not).  The queue store, the connection
objects, the schedulers and the frame class live outside `src/` and are
modelled from the spec (each such definition says so in its doc comment).
Every public operation returns the successor state, the list of externally
visible events (store hand-offs and frame deliveries) and an optional
raised error; as in Python, mutations performed before a raise persist in
the returned state.
-/

namespace CoilMQ

/-- Modelled from the spec (§3, coilmq.server is not under src): a connection
is an opaque handle usable as a map key, exposing a reliability flag.  The
source reads `connection.reliable_subscriber`. -/
structure Conn where
  id : Nat
  reliable_subscriber : Bool
deriving DecidableEq, Repr

/-- Modelled from the spec (§3, coilmq.frame is not under src): a frame has a
command tag, an optional destination and a header mapping.  The source reads
`message.cmd`, `message.destination`, `message.headers` and the property
`frame.message_id` (the `message-id` header). -/
structure Frame where
  cmd : String
  destination : Option String
  headers : List (String × String)
deriving DecidableEq, Repr

/-- Association-list lookup, first matching key (Python dict item read). -/
def alookup {α β : Type} [DecidableEq α] : List (α × β) → α → Option β
  | [], _ => none
  | (k, v) :: t, x => if k = x then some v else alookup t x

/-- Association-list update: replace the first binding of the key, else
append (Python dict item write, preserving insertion order). -/
def aInsert {α β : Type} [DecidableEq α] : List (α × β) → α → β → List (α × β)
  | [], k, v => [(k, v)]
  | (k0, v0) :: t, k, v => if k0 = k then (k, v) :: t else (k0, v0) :: aInsert t k v

/-- Association-list deletion of the first binding of the key (Python `del`). -/
def aErase {α β : Type} [DecidableEq α] : List (α × β) → α → List (α × β)
  | [], _ => []
  | (k0, v0) :: t, k => if k0 = k then t else (k0, v0) :: aErase t k

/-- Set insertion on a duplicate-free list (Python `set.add`). -/
def setAdd {α : Type} [DecidableEq α] (s : List α) (x : α) : List α :=
  if x ∈ s then s else s ++ [x]

/-- Set removal (Python `set.remove` on a present element). -/
def setRemove {α : Type} [DecidableEq α] (s : List α) (x : α) : List α :=
  s.filter (fun y => decide (y ≠ x))

/-- The `message_id` property of a frame: its `message-id` header. -/
def Frame.message_id (f : Frame) : Option String := alookup f.headers "message-id"

/-- Python truthiness of `message.destination`: `None` and `""` are falsy. -/
def destTruthy : Option String → Bool
  | none => false
  | some s => decide (s ≠ "")

/-- The destination string of a frame (meaningful when `destTruthy`). -/
def destOf (f : Frame) : String := f.destination.getD ""

/-- Modelled from the spec (§4.5): `str(uuid.uuid4())` is modelled by a
fresh-supply counter rendered injectively into a string; the global
uniqueness of uuid4 values becomes a provable property of the model. -/
def idString (n : Nat) : String := String.mk (List.replicate (n + 1) 'u')

/-- Modelled from the spec (§6, coilmq.store is not under src): the store
keeps, per destination, the ordered list of resident frames. -/
abbrev Store := List (String × List Frame)

/-- Modelled from the spec (§6): `enqueue(destination, frame)` persists the
frame at the tail. -/
def storeEnqueue (sto : Store) (d : String) (f : Frame) : Store :=
  aInsert sto d ((alookup sto d).getD [] ++ [f])

/-- Modelled from the spec (§6): `dequeue(destination)` removes and returns
the head frame, or returns nothing. -/
def storeDequeue (sto : Store) (d : String) : Option Frame × Store :=
  match alookup sto d with
  | some (f :: fs) => (some f, aInsert sto d fs)
  | _ => (none, sto)

/-- Modelled from the spec (§6): `has_frames(destination)`. -/
def storeHasFrames (sto : Store) (d : String) : Bool :=
  !((alookup sto d).getD []).isEmpty

/-- Modelled from the spec (§6): `frames(destination)` yields every resident
frame for the destination, removing each as it is yielded. -/
def storeDrain (sto : Store) (d : String) : List Frame × Store :=
  ((alookup sto d).getD [], aInsert sto d [])

/-- Modelled from the spec (§6): `requeue(destination, frame)` returns a
frame to the head. -/
def storeRequeue (sto : Store) (d : String) (f : Frame) : Store :=
  aInsert sto d (f :: (alookup sto d).getD [])

/-- QueueManager state: `_queues` (defaultdict of set), `_pending` (dict),
`_transaction_frames` (defaultdict of defaultdict of list), the store, and
the fresh-id supply standing in for uuid4. -/
structure QMState where
  queues : List (String × List Conn)
  pending : List (Conn × Frame)
  transaction_frames : List (Conn × List (String × List Frame))
  store : Store
  nextId : Nat
deriving DecidableEq, Repr

/-- Errors the embedded operations can raise, mirroring the Python
exceptions: `ValueError` (send without destination, the spec's BadFrame),
`RuntimeError` (reliable send path with a pending frame already present),
`KeyError` (del of an absent transaction id), and `TypeError` (the
one-argument `store.requeue` call in `disconnect` against the spec's
two-argument store contract). -/
inductive QErr where
  | valueError
  | runtimeError
  | keyError
  | typeError
deriving DecidableEq, Repr

/-- Externally visible events of one operation, in order: store hand-offs,
frame deliveries (`connection.send_frame`), log warnings, and the
assignment of a generated `message-id`.  `requeueOneArg` records
`disconnect`'s call of `store.requeue` with a single argument. -/
inductive Ev where
  | enqueue (d : String) (f : Frame)
  | requeue (d : String) (f : Frame)
  | requeueOneArg (f : Frame)
  | deliver (c : Conn) (f : Frame)
  | warn (m : String)
  | assignedId (s : String)
deriving DecidableEq, Repr

/-- Result of one operation: successor state, events, optional error. -/
structure Res where
  st : QMState
  evs : List Ev
  err : Option QErr
deriving DecidableEq, Repr

/-- Modelled from the spec (§4.1-§4.2, coilmq.scheduler is not under src):
the subscriber scheduler picks one connection from a non-empty candidate
list; the queue scheduler picks one destination (or none) from a candidate
mapping.  Both are opaque parameters of the model. -/
structure Sched where
  sub : List Conn → Frame → Conn
  qsel : List (String × List Conn) → Conn → Option String

/-- Modelled from the spec (§4.1): deterministic stand-in for
`FavorReliableSubscriberScheduler` — first reliable candidate, else first
candidate (determinism replaces the spec's uniform randomness). -/
def favorReliable (subs : List Conn) (_f : Frame) : Conn :=
  match subs.find? (fun c => c.reliable_subscriber) with
  | some c => c
  | none => subs.headD ⟨0, false⟩

/-- Modelled from the spec (§4.2): deterministic stand-in for
`RandomQueueScheduler` — the first candidate destination. -/
def firstQueue (qs : List (String × List Conn)) (_c : Conn) : Option String :=
  match qs with
  | [] => none
  | (d, _) :: _ => some d

/-- Default scheduler pair used by concrete runs. -/
def defaultSched : Sched := ⟨favorReliable, firstQueue⟩

/-- Embeds `QueueManager._send_frame`: on a reliable subscriber, raise
`RuntimeError` when a pending frame exists, else record the frame in
`_pending`; then `connection.send_frame(frame)` (the deliver event). -/
def sendToConn (st : QMState) (c : Conn) (f : Frame) : Res :=
  if c.reliable_subscriber then
    if (alookup st.pending c).isSome then
      { st := st, evs := [], err := some .runtimeError }
    else
      { st := { st with pending := aInsert st.pending c f },
        evs := [.deliver c f], err := none }
  else
    { st := st, evs := [.deliver c f], err := none }

/-- Embeds `QueueManager._send_backlog`: a reliable subscriber gets at most
one dequeued frame through `_send_frame`; a non-reliable one gets every
frame of `store.frames(destination)` (each `_send_frame` call on a
non-reliable connection only emits the deliver event). -/
def sendBacklog (st : QMState) (c : Conn) (d : String) : Res :=
  if c.reliable_subscriber then
    match storeDequeue st.store d with
    | (some f, sto) => sendToConn { st with store := sto } c f
    | (none, sto) => { st := { st with store := sto }, evs := [], err := none }
  else
    { st := { st with store := (storeDrain st.store d).2 },
      evs := (storeDrain st.store d).1.map (Ev.deliver c), err := none }

/-- Embeds `QueueManager.subscribe`: `self._queues[destination].add(connection)`
(defaultdict item access plus set add), then the backlog drain. -/
def subscribe (st : QMState) (c : Conn) (d : String) : Res :=
  sendBacklog
    { st with queues := aInsert st.queues d (setAdd ((alookup st.queues d).getD []) c) }
    c d

/-- Embeds `QueueManager.unsubscribe`: remove the connection if present
(the defaultdict access creates the entry first), then delete the entry
when the set is empty. -/
def unsubscribe (st : QMState) (c : Conn) (d : String) : Res :=
  let s := (alookup st.queues d).getD []
  let s1 := if c ∈ s then setRemove s c else s
  if s1.isEmpty then
    { st := { st with queues := aErase st.queues d }, evs := [], err := none }
  else
    { st := { st with queues := aInsert st.queues d s1 }, evs := [], err := none }

/-- Embeds `QueueManager.disconnect`.  With a pending frame the source calls
`self.store.requeue(self._pending[connection])` with a single argument;
against the spec's two-argument `requeue(destination, frame)` contract this
call is ill-typed and raises `TypeError` before any state mutation (the
attempted call is recorded as a `requeueOneArg` event).  Without a pending
frame, the connection is removed from every subscriber set and emptied
sets are deleted. -/
def disconnect (st : QMState) (c : Conn) : Res :=
  match alookup st.pending c with
  | some f =>
      { st := st, evs := [.requeueOneArg f], err := some .typeError }
  | none =>
      { st := { st with
          queues := (st.queues.map (fun p => (p.1, setRemove p.2 c))).filter
            (fun p => !p.2.isEmpty) },
        evs := [], err := none }

/-- Embeds the entry mutations of `QueueManager.send`: set the command tag
to `MESSAGE` and, when the `message-id` header is absent, append a freshly
generated one, bumping the supply and recording the assignment. -/
def normalizeMsg (st : QMState) (m : Frame) : Frame × QMState × List Ev :=
  let m1 : Frame := { m with cmd := "MESSAGE" }
  if (alookup m1.headers "message-id").isSome then (m1, st, [])
  else
    ({ m1 with headers := m1.headers ++ [("message-id", idString st.nextId)] },
     { st with nextId := st.nextId + 1 },
     [.assignedId (idString st.nextId)])

/-- The defaultdict item access `self._queues[dest]` inside `send`: it
creates an empty entry when the destination is absent. -/
def touchKey (qs : List (String × List Conn)) (d : String) : List (String × List Conn) :=
  if (alookup qs d).isSome then qs else qs ++ [(d, [])]

/-- The eligible-subscriber computation of `send`: subscribers of the
destination that have no pending frame. -/
def sendEligible (qs : List (String × List Conn)) (pending : List (Conn × Frame))
    (d : String) : List Conn :=
  ((alookup qs d).getD []).filter (fun s => (alookup pending s).isNone)

/-- Embeds `QueueManager.send`: raise `ValueError` on a falsy destination;
normalize the frame; compute the eligible subscribers (the defaultdict
access creating the destination's entry); enqueue to the store when none
are eligible, else hand the scheduler's choice to `_send_frame`. -/
def send (S : Sched) (st : QMState) (m : Frame) : Res :=
  if destTruthy m.destination then
    let d := destOf m
    let n := normalizeMsg st m
    let st2 : QMState := { n.2.1 with queues := touchKey n.2.1.queues d }
    let subs := sendEligible st2.queues st2.pending d
    if subs.isEmpty then
      { st := { st2 with store := storeEnqueue st2.store d n.1 },
        evs := n.2.2 ++ [.enqueue d n.1], err := none }
    else
      let r := sendToConn st2 (S.sub subs n.1) n.1
      { st := r.st, evs := n.2.2 ++ r.evs, err := r.err }
  else
    { st := st, evs := [], err := some .valueError }

/-- Embeds `QueueManager._send_subscriber_backlog`: among the destinations
whose subscriber set contains the connection and that have store backlog,
let the queue scheduler pick one, dequeue its head and hand it to
`_send_frame`. -/
def sendSubscriberBacklog (S : Sched) (st : QMState) (c : Conn) : Res :=
  let eligible := st.queues.filter
    (fun p => decide (c ∈ p.2) && storeHasFrames st.store p.1)
  if eligible.isEmpty then { st := st, evs := [], err := none }
  else
    match S.qsel eligible c with
    | none => { st := st, evs := [], err := none }
    | some d =>
        match storeDequeue st.store d with
        | (some f, sto) => sendToConn { st with store := sto } c f
        | (none, sto) => { st := { st with store := sto }, evs := [], err := none }

/-- Embeds `QueueManager.ack`: a spurious ACK is a no-op; on a `message-id`
mismatch warn and requeue the pending frame at its destination; under a
transaction append the pending frame to `_transaction_frames` (both
defaultdict levels created by the item accesses); always delete the
pending entry and run the per-subscriber backlog drain. -/
def ack (S : Sched) (st : QMState) (c : Conn) (f : Frame) (tx : Option String) : Res :=
  match alookup st.pending c with
  | none => { st := st, evs := [], err := none }
  | some pf =>
      let mism := pf.message_id ≠ f.message_id
      let st1 : QMState :=
        if mism then { st with store := storeRequeue st.store (destOf pf) pf } else st
      let evs1 : List Ev :=
        if mism then [.warn "unexpected message-id", .requeue (destOf pf) pf] else []
      let st2 : QMState :=
        match tx with
        | none => st1
        | some t =>
            let inner := (alookup st1.transaction_frames c).getD []
            let lst := (alookup inner t).getD []
            let txf := aInsert st1.transaction_frames c (aInsert inner t (lst ++ [pf]))
            { st1 with transaction_frames := txf }
      let r := sendSubscriberBacklog S { st2 with pending := aErase st2.pending c } c
      { st := r.st, evs := evs1 ++ r.evs, err := r.err }

/-- Sequential `send` of a list of frames, stopping at the first raised
error (a Python for-loop over `self.send`). -/
def sendList (S : Sched) (st : QMState) : List Frame → Res
  | [] => { st := st, evs := [], err := none }
  | f :: fs =>
      let r := send S st f
      match r.err with
      | some e => { st := r.st, evs := r.evs, err := some e }
      | none =>
          let r2 := sendList S r.st fs
          { st := r2.st, evs := r.evs ++ r2.evs, err := r2.err }

/-- Embeds `QueueManager.resend_transaction_frames`: the double defaultdict
access `self._transaction_frames[connection][transaction]` creates both
levels when absent; then every buffered frame is re-sent in order. -/
def resend_transaction_frames (S : Sched) (st : QMState) (c : Conn) (t : String) : Res :=
  let inner := (alookup st.transaction_frames c).getD []
  let frames := (alookup inner t).getD []
  let txf := aInsert st.transaction_frames c (aInsert inner t frames)
  sendList S { st with transaction_frames := txf } frames

/-- Embeds `QueueManager.clear_transaction_frames`: the outer defaultdict
access creates the connection's entry; `del` of an absent transaction id
raises `KeyError` (a defaultdict does not create entries on `del`). -/
def clear_transaction_frames (st : QMState) (c : Conn) (t : String) : Res :=
  let inner := (alookup st.transaction_frames c).getD []
  if (alookup inner t).isSome then
    { st := { st with transaction_frames := aInsert st.transaction_frames c (aErase inner t) },
      evs := [], err := none }
  else
    { st := { st with transaction_frames := aInsert st.transaction_frames c inner },
      evs := [], err := some .keyError }

/-- One public operation of the queue manager. -/
inductive Op where
  | sub (c : Conn) (d : String)
  | unsub (c : Conn) (d : String)
  | snd (m : Frame)
  | ak (c : Conn) (f : Frame) (tx : Option String)
  | disc (c : Conn)
  | resend (c : Conn) (t : String)
  | clear (c : Conn) (t : String)

/-- Dispatch one public operation. -/
def stepOp (S : Sched) (st : QMState) : Op → Res
  | .sub c d => subscribe st c d
  | .unsub c d => unsubscribe st c d
  | .snd m => send S st m
  | .ak c f tx => ack S st c f tx
  | .disc c => disconnect st c
  | .resend c t => resend_transaction_frames S st c t
  | .clear c t => clear_transaction_frames st c t

/-- Run a list of public operations, collecting all events (the engine
catches per-operation errors and carries on with the mutated state). -/
def runOps (S : Sched) (st : QMState) : List Op → QMState × List Ev
  | [] => (st, [])
  | o :: os =>
      let r := stepOp S st o
      let p := runOps S r.st os
      (p.1, r.evs ++ p.2)

/-- The freshly constructed manager: every table empty. -/
def initState : QMState :=
  { queues := [], pending := [], transaction_frames := [], store := [], nextId := 0 }

/-! Basic lemmas about the association-list operations. -/

theorem alookup_aInsert_self {α β : Type} [DecidableEq α] (l : List (α × β)) (k : α) (v : β) :
    alookup (aInsert l k v) k = some v := by
  induction l with
  | nil => simp [aInsert, alookup]
  | cons p t ih =>
      obtain ⟨k0, v0⟩ := p
      by_cases h : k0 = k
      · simp [aInsert, h, alookup]
      · simp [aInsert, h, alookup, ih]

theorem alookup_aInsert_ne {α β : Type} [DecidableEq α] (l : List (α × β)) (k k' : α) (v : β)
    (h : k' ≠ k) : alookup (aInsert l k v) k' = alookup l k' := by
  have hk : k ≠ k' := Ne.symm h
  induction l with
  | nil => simp [aInsert, alookup, hk]
  | cons p t ih =>
      obtain ⟨k0, v0⟩ := p
      by_cases h0 : k0 = k
      · subst h0
        simp [aInsert, alookup, hk]
      · simp only [aInsert, if_neg h0, alookup]
        by_cases h1 : k0 = k'
        · simp [h1]
        · simp [h1, ih]

theorem aInsert_eq_of_alookup {α β : Type} [DecidableEq α] (l : List (α × β)) (k : α) (v : β)
    (h : alookup l k = some v) : aInsert l k v = l := by
  induction l with
  | nil => simp [alookup] at h
  | cons p t ih =>
      obtain ⟨k0, v0⟩ := p
      by_cases h0 : k0 = k
      · subst h0
        simp [alookup] at h
        simp [aInsert, h]
      · simp [alookup, h0] at h
        simp [aInsert, h0, ih h]

theorem mem_aInsert {α β : Type} [DecidableEq α] (l : List (α × β)) (k : α) (v : β) :
    ∀ p ∈ aInsert l k v, p ∈ l ∨ p = (k, v) := by
  induction l with
  | nil => intro p hp; simp [aInsert] at hp; simp [hp]
  | cons q t ih =>
      obtain ⟨k0, v0⟩ := q
      intro p hp
      by_cases h0 : k0 = k
      · simp [aInsert, h0] at hp
        rcases hp with hp | hp
        · right; simp [hp]
        · left; simp [hp]
      · simp [aInsert, h0] at hp
        rcases hp with hp | hp
        · left; simp [hp]
        · rcases ih p hp with h | h
          · left; simp [h]
          · right; exact h

theorem mem_aErase {α β : Type} [DecidableEq α] (l : List (α × β)) (k : α) :
    ∀ p ∈ aErase l k, p ∈ l := by
  induction l with
  | nil => intro p hp; simp [aErase] at hp
  | cons q t ih =>
      obtain ⟨k0, v0⟩ := q
      intro p hp
      by_cases h0 : k0 = k
      · simp [aErase, h0] at hp
        simp [hp]
      · simp [aErase, h0] at hp
        rcases hp with hp | hp
        · simp [hp]
        · simp [ih p hp]

theorem alookup_mem {α β : Type} [DecidableEq α] (l : List (α × β)) (k : α) (v : β)
    (h : alookup l k = some v) : (k, v) ∈ l := by
  induction l with
  | nil => simp [alookup] at h
  | cons p t ih =>
      obtain ⟨k0, v0⟩ := p
      by_cases h0 : k0 = k
      · subst h0
        simp [alookup] at h
        simp [h]
      · simp [alookup, h0] at h
        simp [ih h]

theorem alookup_eq_none {α β : Type} [DecidableEq α] (l : List (α × β)) (k : α)
    (h : alookup l k = none) : ∀ p ∈ l, p.1 ≠ k := by
  induction l with
  | nil => intro p hp; simp at hp
  | cons q t ih =>
      obtain ⟨k0, v0⟩ := q
      intro p hp
      by_cases h0 : k0 = k
      · simp [alookup, h0] at h
      · simp [alookup, h0] at h
        rcases List.mem_cons.mp hp with hp | hp
        · simp [hp, h0]
        · exact ih h p hp

theorem aErase_aInsert_of_none {α β : Type} [DecidableEq α] (l : List (α × β)) (k : α) (v : β)
    (h : alookup l k = none) : aErase (aInsert l k v) k = l := by
  induction l with
  | nil => simp [aInsert, aErase]
  | cons p t ih =>
      obtain ⟨k0, v0⟩ := p
      by_cases h0 : k0 = k
      · simp [alookup, h0] at h
      · simp [alookup, h0] at h
        simp [aInsert, aErase, h0, ih h]

theorem setAdd_of_mem {α : Type} [DecidableEq α] (s : List α) (x : α) (h : x ∈ s) :
    setAdd s x = s := by
  simp [setAdd, h]

theorem setAdd_ne_nil {α : Type} [DecidableEq α] (s : List α) (x : α) : setAdd s x ≠ [] := by
  by_cases h : x ∈ s
  · simp [setAdd, h]
    intro hs
    subst hs
    simp at h
  · simp [setAdd, h]

theorem mem_setRemove {α : Type} [DecidableEq α] (s : List α) (x y : α) :
    y ∈ setRemove s x ↔ y ∈ s ∧ y ≠ x := by
  simp [setRemove, List.mem_filter]

theorem not_mem_setRemove {α : Type} [DecidableEq α] (s : List α) (x : α) :
    x ∉ setRemove s x := by
  simp [mem_setRemove]

/-! Concrete connections, frames and reachable states used by the
counterexamples and witnesses. -/

/-- A reliable subscriber connection. -/
def conR : Conn := ⟨1, true⟩

/-- A non-reliable subscriber connection. -/
def conU : Conn := ⟨2, false⟩

/-- A client SEND frame for destination `/q/a` with message-id `m1`. -/
def fm1 : Frame := ⟨"SEND", some "/q/a", [("message-id", "m1")]⟩

/-- A second client SEND frame for `/q/a`, message-id `m2`. -/
def fm2 : Frame := ⟨"SEND", some "/q/a", [("message-id", "m2")]⟩

/-- The frame `fm1` after `send` normalization. -/
def fm1n : Frame := ⟨"MESSAGE", some "/q/a", [("message-id", "m1")]⟩

/-- The frame `fm2` after `send` normalization. -/
def fm2n : Frame := ⟨"MESSAGE", some "/q/a", [("message-id", "m2")]⟩

/-- An ACK frame matching message-id `m1`. -/
def fAck1 : Frame := ⟨"ACK", none, [("message-id", "m1")]⟩

/-- An ACK frame with the unexpected message-id `mX`. -/
def fAckX : Frame := ⟨"ACK", none, [("message-id", "mX")]⟩

/-- A SEND frame with no destination. -/
def fNoDest : Frame := ⟨"SEND", none, []⟩

/-- State after `subscribe(conR, "/q/a")` from the initial state. -/
def stSub : QMState := (subscribe initState conR "/q/a").st

/-- State after additionally `send(fm1)`: `fm1n` is pending for `conR`. -/
def stSent : QMState := (send defaultSched stSub fm1).st

/-- State after additionally `send(fm2)`: `fm2n` sits in the store. -/
def stSent2 : QMState := (send defaultSched stSent fm2).st

/-- State after `ack(conR, fAck1, tx="t1")` from `stSent`:
`transaction_frames[conR]["t1"] = [fm1n]`, nothing pending. -/
def stAckTx : QMState := (ack defaultSched stSent conR fAck1 (some "t1")).st

/-- C9: `send` on a frame whose destination is unset (Python-falsy) raises
`ValueError` (the spec's BadFrame) and changes nothing: the registry,
pending table, transaction buffer, store and fresh-id supply are exactly
the input state, and no event (in particular no frame mutation, which in
the source happens only after the destination check) is produced. -/
theorem C9_send_no_destination (S : Sched) (st : QMState) (m : Frame)
    (h : destTruthy m.destination = false) :
    send S st m = { st := st, evs := [], err := some QErr.valueError } := by
  simp [send, h]

/-- Witness for C9 at a concrete destination-less frame. -/
theorem C9_witness :
    destTruthy fNoDest.destination = false ∧
      send defaultSched initState fNoDest =
        { st := initState, evs := [], err := some QErr.valueError } :=
  ⟨by decide, C9_send_no_destination defaultSched initState fNoDest (by decide)⟩

/-- C4 is a code bug, evaluated at the failing input: in the reachable state
`stSent` the connection `conR` has the pending frame `fm1n`, and
`disconnect` calls `store.requeue` with only that frame — no destination
argument — which against the spec's two-argument store contract raises
`TypeError`; the pending entry is not removed and the store receives no
`requeue(destination, frame)`. -/
theorem C4_disconnect_requeue_one_arg :
    alookup stSent.pending conR = some fm1n ∧
    disconnect stSent conR =
      { st := stSent, evs := [Ev.requeueOneArg fm1n], err := some QErr.typeError } := by
  decide

/-- C1 (amended): a `disconnect` that returns normally — which requires the
connection to have no pending entry, since a pending entry makes the
one-argument requeue call raise `TypeError` with no state change — removes
the connection from every subscriber set of the registry and leaves it
absent from the pending table, but the transaction buffer is left
completely untouched: `T[connection]` is not discarded. -/
theorem C1_disconnect_amended (st : QMState) (c : Conn) :
    (alookup st.pending c = none →
      (disconnect st c).err = none ∧
      (∀ p ∈ (disconnect st c).st.queues, c ∉ p.2) ∧
      alookup (disconnect st c).st.pending c = none ∧
      (disconnect st c).st.transaction_frames = st.transaction_frames) ∧
    (∀ f, alookup st.pending c = some f →
      (disconnect st c).err = some QErr.typeError ∧ (disconnect st c).st = st) := by
  constructor
  · intro h
    refine ⟨?_, ?_, ?_, ?_⟩
    · simp [disconnect, h]
    · intro p hp
      simp only [disconnect, h, List.mem_filter] at hp
      obtain ⟨hp1, _⟩ := hp
      obtain ⟨q, _, rfl⟩ := List.mem_map.mp hp1
      exact not_mem_setRemove _ _
    · simp [disconnect, h]
    · simp [disconnect, h]
  · intro f hf
    simp [disconnect, hf]

/-- Witness for the amended C1 at the reachable state `stAckTx`. -/
theorem C1_witness :
    (disconnect stAckTx conR).err = none ∧
      (disconnect stAckTx conR).st.transaction_frames = stAckTx.transaction_frames :=
  ⟨((C1_disconnect_amended stAckTx conR).1 (by decide)).1,
   ((C1_disconnect_amended stAckTx conR).1 (by decide)).2.2.2⟩

/-- C1 is false on the code: from the reachable state `stAckTx` (built by
subscribe, send, transactional ack), `disconnect conR` returns without
error yet `conR` is still a key of the transaction buffer — the source
never touches `_transaction_frames` in `disconnect`. -/
theorem C1_cex :
    (disconnect stAckTx conR).err = none ∧
    (alookup (disconnect stAckTx conR).st.transaction_frames conR).isSome = true := by
  decide

/-- C7: when connection `c` has pending frame `pf` and an ack arrives with a
different message-id, `ack` (without transaction) warns, requeues `pf`
into the store at `pf`'s destination, still clears the pending entry, and
then runs the per-subscriber backlog drain on the resulting state. -/
theorem C7_ack_mismatch (S : Sched) (st : QMState) (c : Conn) (f pf : Frame)
    (hp : alookup st.pending c = some pf)
    (hm : pf.message_id ≠ f.message_id) :
    ack S st c f none =
      { st := (sendSubscriberBacklog S
          { st with store := storeRequeue st.store (destOf pf) pf,
                    pending := aErase st.pending c } c).st,
        evs := [Ev.warn "unexpected message-id", Ev.requeue (destOf pf) pf] ++
          (sendSubscriberBacklog S
            { st with store := storeRequeue st.store (destOf pf) pf,
                      pending := aErase st.pending c } c).evs,
        err := (sendSubscriberBacklog S
          { st with store := storeRequeue st.store (destOf pf) pf,
                    pending := aErase st.pending c } c).err } := by
  simp [ack, hp, hm]

/-- Witness for C7: the mismatched ack `fAckX` against pending `fm1n`. -/
theorem C7_witness :
    ack defaultSched stSent conR fAckX none =
      { st := (sendSubscriberBacklog defaultSched
          { stSent with store := storeRequeue stSent.store (destOf fm1n) fm1n,
                        pending := aErase stSent.pending conR } conR).st,
        evs := [Ev.warn "unexpected message-id", Ev.requeue (destOf fm1n) fm1n] ++
          (sendSubscriberBacklog defaultSched
            { stSent with store := storeRequeue stSent.store (destOf fm1n) fm1n,
                          pending := aErase stSent.pending conR } conR).evs,
        err := (sendSubscriberBacklog defaultSched
          { stSent with store := storeRequeue stSent.store (destOf fm1n) fm1n,
                        pending := aErase stSent.pending conR } conR).err } :=
  C7_ack_mismatch defaultSched stSent conR fAckX fm1n (by decide) (by decide)

/-- C10: `resend_transaction_frames` on a (connection, transaction) pair
with no buffered entry delivers no frames and raises no error, but as a
side effect creates the empty entry `T[c][tx]` (both defaultdict levels);
a `clear_transaction_frames` issued immediately afterwards therefore
succeeds as a no-op, whereas a clear on a transaction never seen by ack or
resend raises `KeyError`. -/
theorem C10_resend_then_clear (S : Sched) (st : QMState) (c : Conn) (t : String)
    (h : alookup ((alookup st.transaction_frames c).getD []) t = none) :
    (resend_transaction_frames S st c t).evs = [] ∧
    (resend_transaction_frames S st c t).err = none ∧
    alookup ((alookup (resend_transaction_frames S st c t).st.transaction_frames c).getD []) t
      = some [] ∧
    (resend_transaction_frames S st c t).st.queues = st.queues ∧
    (resend_transaction_frames S st c t).st.pending = st.pending ∧
    (resend_transaction_frames S st c t).st.store = st.store ∧
    (clear_transaction_frames (resend_transaction_frames S st c t).st c t).err = none ∧
    alookup ((alookup (clear_transaction_frames
        (resend_transaction_frames S st c t).st c t).st.transaction_frames c).getD []) t
      = none ∧
    (clear_transaction_frames st c t).err = some QErr.keyError := by
  have h0 : ((alookup ((alookup st.transaction_frames c).getD []) t).getD []) = [] := by
    simp [h]
  have h1 := alookup_aInsert_self st.transaction_frames c
    (aInsert ((alookup st.transaction_frames c).getD []) t [])
  have h2 := alookup_aInsert_self ((alookup st.transaction_frames c).getD []) t ([] : List Frame)
  have h3 := aErase_aInsert_of_none ((alookup st.transaction_frames c).getD []) t
    ([] : List Frame) h
  refine ⟨?_, ?_, ?_, ?_, ?_, ?_, ?_, ?_, ?_⟩
  · simp [resend_transaction_frames, h0, sendList]
  · simp [resend_transaction_frames, h0, sendList]
  · simp [resend_transaction_frames, h0, sendList, h1, h2]
  · simp [resend_transaction_frames, h0, sendList]
  · simp [resend_transaction_frames, h0, sendList]
  · simp [resend_transaction_frames, h0, sendList]
  · simp [resend_transaction_frames, clear_transaction_frames, h0, sendList, h1, h2]
  · simp only [resend_transaction_frames, h0, sendList, clear_transaction_frames]
    simp [h1, h2, h3, alookup_aInsert_self, h]
  · simp [clear_transaction_frames, h]

/-- Witness for C10 at the concrete pair `(conR, "tX")` on the fresh state. -/
theorem C10_witness :
    (resend_transaction_frames defaultSched initState conR "tX").evs = [] ∧
    (clear_transaction_frames
      (resend_transaction_frames defaultSched initState conR "tX").st conR "tX").err = none ∧
    (clear_transaction_frames initState conR "tX").err = some QErr.keyError := by
  have h := C10_resend_then_clear defaultSched initState conR "tX" (by decide)
  exact ⟨h.1, h.2.2.2.2.2.2.1, h.2.2.2.2.2.2.2.2⟩

/-- A present destination key is left unchanged by the defaultdict access. -/
theorem touchKey_of_isSome (qs : List (String × List Conn)) (d : String)
    (h : (alookup qs d).isSome = true) : touchKey qs d = qs := by
  simp [touchKey, h]

/-- C3 (amended): re-subscribing an already-subscribed reliable connection
that still has a pending frame leaves the registry unchanged, leaves the
pending table unchanged, hands no frame to the connection — but it still
triggers the backlog drain, which dequeues the head frame of the store for
that destination (when there is one) and then raises `RuntimeError` from
the reliable send path, so that dequeued frame is lost: it is in neither
the store nor the pending table and is never delivered. -/
theorem C3_resubscribe_amended (st : QMState) (c : Conn) (d : String)
    (s : List Conn)
    (hq : alookup st.queues d = some s) (hc : c ∈ s)
    (hrel : c.reliable_subscriber = true)
    (hpend : (alookup st.pending c).isSome = true) :
    (subscribe st c d).st.queues = st.queues ∧
    (subscribe st c d).st.pending = st.pending ∧
    (subscribe st c d).evs = [] ∧
    (subscribe st c d).st.store = (storeDequeue st.store d).2 ∧
    (subscribe st c d).err =
      (if (storeDequeue st.store d).1.isSome then some QErr.runtimeError else none) := by
  have h1 : setAdd s c = s := setAdd_of_mem s c hc
  have h2 : aInsert st.queues d (setAdd ((alookup st.queues d).getD []) c) = st.queues := by
    rw [hq]
    show aInsert st.queues d (setAdd s c) = st.queues
    rw [h1]
    exact aInsert_eq_of_alookup _ _ _ hq
  have hst : ({ st with
      queues := aInsert st.queues d (setAdd ((alookup st.queues d).getD []) c) } : QMState)
      = st := by
    rw [h2]
  have hsub : subscribe st c d = sendBacklog st c d := by
    unfold subscribe
    rw [hst]
  rw [hsub]
  rcases hdq : storeDequeue st.store d with ⟨of, sto⟩
  cases of with
  | some f => simp [sendBacklog, hrel, hdq, sendToConn, hpend]
  | none => simp [sendBacklog, hrel, hdq]

/-- Witness for the amended C3 at the reachable state `stSent2`. -/
theorem C3_witness :
    (subscribe stSent2 conR "/q/a").st.queues = stSent2.queues ∧
    (subscribe stSent2 conR "/q/a").st.pending = stSent2.pending ∧
    (subscribe stSent2 conR "/q/a").evs = [] ∧
    (subscribe stSent2 conR "/q/a").st.store = (storeDequeue stSent2.store "/q/a").2 ∧
    (subscribe stSent2 conR "/q/a").err =
      (if (storeDequeue stSent2.store "/q/a").1.isSome then some QErr.runtimeError
       else none) :=
  C3_resubscribe_amended stSent2 conR "/q/a" [conR]
    (by decide) (by decide) (by decide) (by decide)

/-- C3 is false on the code in its no-frame-lost part: in the reachable
state `stSent2` the store holds `fm2n` for `/q/a` and `conR` is pending;
re-subscribing `conR` delivers nothing (`evs = []`) and raises
`RuntimeError`, and afterwards the store entry is empty while the pending
entry still holds `fm1n` — the dequeued `fm2n` is lost. -/
theorem C3_cex :
    alookup stSent2.store "/q/a" = some [fm2n] ∧
    (alookup stSent2.pending conR).isSome = true ∧
    (subscribe stSent2 conR "/q/a").err = some QErr.runtimeError ∧
    (subscribe stSent2 conR "/q/a").evs = [] ∧
    alookup (subscribe stSent2 conR "/q/a").st.store "/q/a" = some [] ∧
    alookup (subscribe stSent2 conR "/q/a").st.pending conR = some fm1n := by
  decide

/-- C5: `send` on a frame with a truthy destination computes the eligible
set (subscribers of the destination with no pending entry); when it is
empty the normalized frame is handed to `store.enqueue(destination, frame)`
and nobody receives a delivery; when it is non-empty, the subscriber
scheduler's choice — provided, per the scheduler contract, it is a member
of the eligible list — alone receives the frame through the reliable send
path: one deliver event, the pending table gaining the frame exactly when
the selected connection is reliable, and the store untouched. -/
theorem C5_send_dispatch (S : Sched) (st : QMState) (m m2 : Frame) (st1 : QMState)
    (evs0 : List Ev) (d : String)
    (h : destTruthy m.destination = true)
    (hd : d = destOf m)
    (hn : normalizeMsg st m = (m2, st1, evs0)) :
    (sendEligible (touchKey st1.queues d) st1.pending d = [] →
      send S st m =
        { st := { st1 with queues := touchKey st1.queues d,
                           store := storeEnqueue st1.store d m2 },
          evs := evs0 ++ [Ev.enqueue d m2], err := none }) ∧
    (∀ subs, subs = sendEligible (touchKey st1.queues d) st1.pending d → subs ≠ [] →
      S.sub subs m2 ∈ subs →
      send S st m =
        { st := { st1 with queues := touchKey st1.queues d,
                           pending := if (S.sub subs m2).reliable_subscriber then
                             aInsert st1.pending (S.sub subs m2) m2 else st1.pending },
          evs := evs0 ++ [Ev.deliver (S.sub subs m2) m2], err := none }) := by
  subst hd
  constructor
  · intro he
    simp [send, h, hn, he]
  · intro subs hs hne hmem
    have hmem2 : S.sub subs m2 ∈
        sendEligible (touchKey st1.queues (destOf m)) st1.pending (destOf m) := by
      rw [← hs]
      exact hmem
    have hnone : (alookup st1.pending (S.sub subs m2)).isNone = true :=
      (List.mem_filter.mp hmem2).2
    have hpn : alookup st1.pending (S.sub subs m2) = none :=
      Option.isNone_iff_eq_none.mp hnone
    have hie : (sendEligible (touchKey st1.queues (destOf m)) st1.pending
        (destOf m)).isEmpty = false := by
      rw [← hs]
      cases subs with
      | nil => exact absurd rfl hne
      | cons a l => rfl
    cases hrel : (S.sub subs m2).reliable_subscriber with
    | true =>
        simp [send, h, hn, hie, ← hs, sendToConn, hrel, hpn]
        exact hne
    | false =>
        simp [send, h, hn, hie, ← hs, sendToConn, hrel]
        exact hne

/-- Witness for C5: delivery to the sole eligible subscriber in `stSub`. -/
theorem C5_witness :
    (send defaultSched stSub fm1).evs = [Ev.deliver conR fm1n] ∧
    (send defaultSched stSub fm1).err = none := by
  have h := (C5_send_dispatch defaultSched stSub fm1 fm1n stSub [] "/q/a"
      (by decide) (by decide) (by decide)).2 [conR] (by decide) (by decide) (by decide)
  rw [h]
  exact ⟨rfl, rfl⟩

theorem alookup_append_of_none {α β : Type} [DecidableEq α] (l1 l2 : List (α × β)) (k : α)
    (h : alookup l1 k = none) : alookup (l1 ++ l2) k = alookup l2 k := by
  induction l1 with
  | nil => rfl
  | cons p t ih =>
      obtain ⟨k0, v0⟩ := p
      by_cases h0 : k0 = k
      · simp [alookup, h0] at h
      · simp [alookup, h0] at h ⊢
        exact ih h

/-- The state returned by `normalizeMsg` differs from the input state in the
fresh-id supply at most. -/
theorem normalizeMsg_fields (st : QMState) (m : Frame) :
    (normalizeMsg st m).2.1.queues = st.queues ∧
    (normalizeMsg st m).2.1.pending = st.pending ∧
    (normalizeMsg st m).2.1.store = st.store ∧
    (normalizeMsg st m).2.1.transaction_frames = st.transaction_frames := by
  unfold normalizeMsg
  by_cases h : (alookup m.headers "message-id").isSome = true <;> simp [h]

/-- `normalizeMsg` sets the command tag to MESSAGE. -/
theorem normalizeMsg_cmd (st : QMState) (m : Frame) :
    (normalizeMsg st m).1.cmd = "MESSAGE" := by
  unfold normalizeMsg
  by_cases h : (alookup m.headers "message-id").isSome = true <;> simp [h]

/-- The frame produced by `normalizeMsg` always carries a message-id. -/
theorem normalizeMsg_message_id (st : QMState) (m : Frame) :
    ((normalizeMsg st m).1.message_id).isSome = true := by
  unfold normalizeMsg
  by_cases h : (alookup m.headers "message-id").isSome = true
  · simp [h, Frame.message_id]
  · have hn : alookup m.headers "message-id" = none := by
      cases ho : alookup m.headers "message-id" with
      | none => rfl
      | some v => rw [ho] at h; simp at h
    simp [h, Frame.message_id, alookup_append_of_none _ _ _ hn, alookup]

/-- A store whose every entry is an empty list reports no frames anywhere. -/
theorem storeHasFrames_of_all_nil (sto : Store)
    (hsto : ∀ p ∈ sto, p.2 = ([] : List Frame)) (d : String) :
    storeHasFrames sto d = false := by
  unfold storeHasFrames
  cases h : alookup sto d with
  | none => rfl
  | some l =>
      have hl := hsto (d, l) (alookup_mem _ _ _ h)
      simp only at hl
      simp [hl]

/-- C8: the reliable round trip.  With `c` the sole (reliable, not pending)
subscriber of destination `d`, a frame-less store, and the scheduler
choosing `c`, `send m` delivers the normalized frame to `c` alone (the
store never sees it), and a matching `ack` clears the pending entry and
runs an empty backlog drain: afterwards `c` is not in the pending table
and the two operations emit no enqueue and no requeue event — the send
events are the optional id assignment plus the single delivery, and the
ack events are empty. -/
theorem C8_round_trip (S : Sched) (st : QMState) (c : Conn) (d : String) (m f : Frame)
    (hrel : c.reliable_subscriber = true)
    (hq : alookup st.queues d = some [c])
    (hp : alookup st.pending c = none)
    (hsto : ∀ p ∈ st.store, p.2 = ([] : List Frame))
    (hm : m.destination = some d) (hd : d ≠ "")
    (hsel : S.sub [c] (normalizeMsg st m).1 = c)
    (hack : f.message_id = ((normalizeMsg st m).1).message_id) :
    (send S st m).err = none ∧
    (send S st m).evs = (normalizeMsg st m).2.2 ++ [Ev.deliver c (normalizeMsg st m).1] ∧
    (ack S (send S st m).st c f none).err = none ∧
    (ack S (send S st m).st c f none).evs = [] ∧
    alookup (ack S (send S st m).st c f none).st.pending c = none := by
  obtain ⟨hq1, hp1, hs1, _⟩ := normalizeMsg_fields st m
  have hfalsy : destTruthy m.destination = true := by
    rw [hm]
    simp [destTruthy, hd]
  have hdo : destOf m = d := by simp [destOf, hm]
  have htouch : touchKey (normalizeMsg st m).2.1.queues (destOf m)
      = (normalizeMsg st m).2.1.queues := by
    apply touchKey_of_isSome
    rw [hq1, hdo, hq]
    rfl
  have hpn2 : alookup (normalizeMsg st m).2.1.pending c = none := by
    rw [hp1]
    exact hp
  have helig : sendEligible (touchKey (normalizeMsg st m).2.1.queues (destOf m))
      (normalizeMsg st m).2.1.pending (destOf m) = [c] := by
    rw [htouch, hq1, hp1, hdo]
    simp [sendEligible, hq, hp]
  rw [htouch] at helig
  have hsend : send S st m =
      { st := { (normalizeMsg st m).2.1 with
          pending := aInsert (normalizeMsg st m).2.1.pending c (normalizeMsg st m).1 },
        evs := (normalizeMsg st m).2.2 ++ [Ev.deliver c (normalizeMsg st m).1],
        err := none } := by
    simp [send, hfalsy, htouch, helig, hsel, sendToConn, hrel, hpn2]
  have hfilter : (normalizeMsg st m).2.1.queues.filter
      (fun p => decide (c ∈ p.2) && storeHasFrames (normalizeMsg st m).2.1.store p.1)
      = [] := by
    rw [List.filter_eq_nil_iff]
    intro p _
    rw [hs1, storeHasFrames_of_all_nil st.store hsto p.1]
    simp
  have hback : sendSubscriberBacklog S (normalizeMsg st m).2.1 c =
      { st := (normalizeMsg st m).2.1, evs := [], err := none } := by
    unfold sendSubscriberBacklog
    rw [hfilter]
    rfl
  have hmid : ¬((normalizeMsg st m).1.message_id ≠ f.message_id) := by
    rw [hack]
    exact fun hh => hh rfl
  have herase : aErase (aInsert (normalizeMsg st m).2.1.pending c (normalizeMsg st m).1) c
      = (normalizeMsg st m).2.1.pending :=
    aErase_aInsert_of_none _ _ _ hpn2
  have hackeq : ack S (send S st m).st c f none =
      { st := (normalizeMsg st m).2.1, evs := [], err := none } := by
    rw [hsend]
    simp [ack, alookup_aInsert_self, hmid, herase, hback]
  refine ⟨?_, ?_, ?_, ?_, ?_⟩
  · rw [hsend]
  · rw [hsend]
  · rw [hackeq]
  · rw [hackeq]
  · rw [hackeq]
    exact hpn2

/-- Witness for C8: the concrete round trip of `fm1` through `conR`. -/
theorem C8_witness :
    (send defaultSched stSub fm1).err = none ∧
    (send defaultSched stSub fm1).evs = [Ev.deliver conR fm1n] ∧
    (ack defaultSched (send defaultSched stSub fm1).st conR fAck1 none).err = none ∧
    (ack defaultSched (send defaultSched stSub fm1).st conR fAck1 none).evs = [] ∧
    alookup (ack defaultSched (send defaultSched stSub fm1).st conR fAck1 none).st.pending
      conR = none := by
  have h := C8_round_trip defaultSched stSub conR "/q/a" fm1 fAck1
    (by decide) (by decide) (by decide) (by decide) (by decide) (by decide)
    (by decide) (by decide)
  exact ⟨h.1, h.2.1, h.2.2.1, h.2.2.2.1, h.2.2.2.2⟩

/-- Invariant I1 of the spec: every registry entry maps to a non-empty
subscriber set. -/
def I1 (st : QMState) : Prop := ∀ p ∈ st.queues, p.2 ≠ []

theorem sendToConn_queues (st : QMState) (c : Conn) (f : Frame) :
    (sendToConn st c f).st.queues = st.queues := by
  unfold sendToConn
  split
  · split <;> rfl
  · rfl

theorem sendBacklog_queues (st : QMState) (c : Conn) (d : String) :
    (sendBacklog st c d).st.queues = st.queues := by
  unfold sendBacklog
  split
  · split
    · exact sendToConn_queues _ _ _
    · rfl
  · rfl

theorem sendSubscriberBacklog_queues (S : Sched) (st : QMState) (c : Conn) :
    (sendSubscriberBacklog S st c).st.queues = st.queues := by
  simp only [sendSubscriberBacklog]
  split
  · rfl
  · split
    · rfl
    · split
      · exact sendToConn_queues _ _ _
      · rfl

theorem ack_queues (S : Sched) (st : QMState) (c : Conn) (f : Frame) (tx : Option String) :
    (ack S st c f tx).st.queues = st.queues := by
  unfold ack
  split
  · rfl
  · rw [sendSubscriberBacklog_queues]
    split <;> split <;> rfl

theorem send_queues_stable (S : Sched) (st : QMState) (m : Frame)
    (h : destTruthy m.destination = false ∨ (alookup st.queues (destOf m)).isSome = true) :
    (send S st m).st.queues = st.queues := by
  by_cases hdt : destTruthy m.destination = true
  · rcases h with h | h
    · rw [hdt] at h
      cases h
    · have hq1 := (normalizeMsg_fields st m).1
      have ht2 : touchKey st.queues (destOf m) = st.queues := touchKey_of_isSome _ _ h
      simp only [send, hdt, if_true]
      split
      · simp [hq1, ht2]
      · simp [hq1, ht2, sendToConn_queues]
  · have hdf : destTruthy m.destination = false := by
      cases hx : destTruthy m.destination
      · rfl
      · exact absurd hx hdt
    simp [send, hdf]

theorem sendList_queues_stable (S : Sched) (st : QMState) (fs : List Frame)
    (h : ∀ f ∈ fs, destTruthy f.destination = false ∨
        (alookup st.queues (destOf f)).isSome = true) :
    (sendList S st fs).st.queues = st.queues := by
  induction fs generalizing st with
  | nil => rfl
  | cons f rest ih =>
      have hq := send_queues_stable S st f (h f (by simp))
      simp only [sendList]
      split
      · exact hq
      · rw [ih (send S st f).st ?_]
        · exact hq
        · intro f' hf'
          rw [hq]
          exact h f' (by simp [hf'])

/-- C2 (amended): invariant I1 is preserved by subscribe, unsubscribe, ack,
disconnect and clear_transaction_frames unconditionally; but `send`
preserves it only when the message's destination is falsy (BadFrame) or
already has a registry entry — a send to a destination absent from the
registry creates an empty entry via the defaultdict access, violating I1 —
and `resend_transaction_frames` accordingly preserves it only when every
buffered frame's destination is falsy or already registered. -/
theorem C2_I1_amended (S : Sched) (st : QMState) (h : I1 st) :
    (∀ c d, I1 (subscribe st c d).st) ∧
    (∀ c d, I1 (unsubscribe st c d).st) ∧
    (∀ c f tx, I1 (ack S st c f tx).st) ∧
    (∀ c, I1 (disconnect st c).st) ∧
    (∀ c t, I1 (clear_transaction_frames st c t).st) ∧
    (∀ m, destTruthy m.destination = false ∨
        (alookup st.queues (destOf m)).isSome = true → I1 (send S st m).st) ∧
    (∀ c t, (∀ f' ∈ (alookup ((alookup st.transaction_frames c).getD []) t).getD [],
        destTruthy f'.destination = false ∨
        (alookup st.queues (destOf f')).isSome = true) →
      I1 (resend_transaction_frames S st c t).st) := by
  refine ⟨?_, ?_, ?_, ?_, ?_, ?_, ?_⟩
  · intro c d p hp
    rw [subscribe, sendBacklog_queues] at hp
    rcases mem_aInsert _ _ _ p hp with hp | hp
    · exact h p hp
    · rw [hp]
      exact setAdd_ne_nil _ _
  · intro c d p hp
    simp only [unsubscribe] at hp
    by_cases he : ((if c ∈ (alookup st.queues d).getD [] then
        setRemove ((alookup st.queues d).getD []) c
        else (alookup st.queues d).getD [])).isEmpty = true
    · rw [if_pos he] at hp
      exact h p (mem_aErase _ _ p hp)
    · rw [if_neg he] at hp
      rcases mem_aInsert _ _ _ p hp with hp | hp
      · exact h p hp
      · intro hnil
        apply he
        rw [hp] at hnil
        dsimp only at hnil
        rw [hnil]
        rfl
  · intro c f tx p hp
    rw [ack_queues] at hp
    exact h p hp
  · intro c p hp
    unfold disconnect at hp
    split at hp
    · exact h p hp
    · simp only [List.mem_filter] at hp
      obtain ⟨_, hp2⟩ := hp
      intro hnil
      rw [hnil] at hp2
      simp at hp2
  · intro c t p hp
    simp only [clear_transaction_frames] at hp
    split at hp
    · exact h p hp
    · exact h p hp
  · intro m hm p hp
    rw [send_queues_stable S st m hm] at hp
    exact h p hp
  · intro c t hfs p hp
    unfold resend_transaction_frames at hp
    rw [sendList_queues_stable] at hp
    · exact h p hp
    · intro f' hf'
      exact hfs f' hf'

/-- Witness for the amended C2: I1 survives a send to the already-populated
destination of `stSub`. -/
theorem C2_witness : I1 (send defaultSched stSub fm1).st :=
  ((C2_I1_amended defaultSched stSub
      (by show ∀ p ∈ stSub.queues, p.2 ≠ []; decide)).2.2.2.2.2.1) fm1
    (Or.inr (by decide))

/-- C2 is false on the code: the initial state satisfies I1 (vacuously), yet
a single `send` to a destination with no subscribers leaves the empty
registry entry `("/q/a", [])` behind — the defaultdict access in `send`
creates it and nothing removes it. -/
theorem C2_cex : I1 initState ∧ ¬ I1 (send defaultSched initState fm1).st := by
  constructor
  · intro p hp
    simp [initState] at hp
  · intro hI
    exact hI ("/q/a", []) (by decide) rfl

/-! Infrastructure for the trace invariant of C6: every frame resident in
the store, the pending table or the transaction buffer is normalized
(MESSAGE tag, message-id present), every delivered frame is normalized,
and the generated message-ids of one run are pairwise distinct. -/

/-- A normalized frame: MESSAGE command tag and a message-id header. -/
def FrameOk (f : Frame) : Prop := f.cmd = "MESSAGE" ∧ (f.message_id).isSome = true

/-- Every frame resident in the store is normalized. -/
def StoreOk (sto : Store) : Prop := ∀ p ∈ sto, ∀ f ∈ p.2, FrameOk f

/-- Every pending frame is normalized. -/
def PendingOk (l : List (Conn × Frame)) : Prop := ∀ p ∈ l, FrameOk p.2

/-- Every frame buffered in the transaction table is normalized. -/
def TxfOk (l : List (Conn × List (String × List Frame))) : Prop :=
  ∀ p ∈ l, ∀ q ∈ p.2, ∀ f ∈ q.2, FrameOk f

/-- Every frame owned by the core is normalized. -/
def StateOk (st : QMState) : Prop :=
  StoreOk st.store ∧ PendingOk st.pending ∧ TxfOk st.transaction_frames

/-- Event observation of C6: every delivered frame is normalized. -/
def EvOk : Ev → Prop
  | .deliver _ f => FrameOk f
  | _ => True

/-- The generated message-ids recorded in an event list, in order. -/
def assignedIds (evs : List Ev) : List String :=
  evs.filterMap (fun e => match e with | .assignedId s => some s | _ => none)

/-- The id strings of the supply interval [a, b). -/
def idsRange (a b : Nat) : List String := (List.range' a (b - a)).map idString

/-- What one operation run from `st` guarantees: the successor state is
normalized, all deliveries are normalized, the supply only grows, and the
assigned ids are exactly the supply interval consumed. -/
def OpOk (st : QMState) (r : Res) : Prop :=
  StateOk r.st ∧ (∀ e ∈ r.evs, EvOk e) ∧ st.nextId ≤ r.st.nextId ∧
  assignedIds r.evs = idsRange st.nextId r.st.nextId

theorem idString_inj (m n : Nat) (h : idString m = idString n) : m = n := by
  have h2 := congrArg (fun s => s.data.length) h
  simp [idString] at h2
  exact h2

theorem idsRange_self (a : Nat) : idsRange a a = [] := by
  simp [idsRange]

theorem idsRange_succ (a : Nat) : idsRange a (a + 1) = [idString a] := by
  have h : a + 1 - a = 1 := by omega
  rw [idsRange, h]
  rfl

theorem idsRange_append (a b c : Nat) (hab : a ≤ b) (hbc : b ≤ c) :
    idsRange a b ++ idsRange b c = idsRange a c := by
  unfold idsRange
  rw [← List.map_append]
  have h1 : (a + 1 * (b - a)) = b := by omega
  have h2 : (c - b) + (b - a) = c - a := by omega
  have h3 := List.range'_append a (b - a) (c - b) 1
  rw [h1, h2] at h3
  rw [h3]

theorem idString_injective : Function.Injective idString :=
  fun x y h => idString_inj x y h

theorem idsRange_nodup (a b : Nat) : (idsRange a b).Nodup := by
  unfold idsRange
  apply List.Nodup.map idString_injective
  exact List.nodup_range' a (b - a)

theorem assignedIds_append (l1 l2 : List Ev) :
    assignedIds (l1 ++ l2) = assignedIds l1 ++ assignedIds l2 := by
  simp [assignedIds]

theorem assignedIds_map_deliver (c : Conn) (l : List Frame) :
    assignedIds (l.map (Ev.deliver c)) = [] := by
  induction l with
  | nil => rfl
  | cons g t ih => simp [assignedIds]

/-- Sequential composition of two operation runs. -/
theorem OpOk_seq (st : QMState) (r1 r2 : Res) (e : Option QErr)
    (h1 : OpOk st r1) (h2 : OpOk r1.st r2) :
    OpOk st { st := r2.st, evs := r1.evs ++ r2.evs, err := e } := by
  obtain ⟨hs1, he1, hn1, ha1⟩ := h1
  obtain ⟨hs2, he2, hn2, ha2⟩ := h2
  refine ⟨hs2, ?_, le_trans hn1 hn2, ?_⟩
  · intro ev hev
    rcases List.mem_append.mp hev with hh | hh
    · exact he1 ev hh
    · exact he2 ev hh
  · rw [assignedIds_append, ha1, ha2, idsRange_append _ _ _ hn1 hn2]

/-- An operation run that consumed no supply and assigned no id. -/
theorem OpOk_mk (st : QMState) (r : Res)
    (hs : StateOk r.st) (he : ∀ ev ∈ r.evs, EvOk ev)
    (hn : r.st.nextId = st.nextId) (ha : assignedIds r.evs = []) :
    OpOk st r := by
  refine ⟨hs, he, by rw [hn], ?_⟩
  rw [ha, hn, idsRange_self]

theorem forall_mem_aInsert {α β : Type} [DecidableEq α] (P : α × β → Prop)
    (l : List (α × β)) (k : α) (v : β)
    (hl : ∀ p ∈ l, P p) (hv : P (k, v)) : ∀ p ∈ aInsert l k v, P p :=
  fun p hp => (mem_aInsert l k v p hp).elim (hl p) (fun h => h ▸ hv)

theorem forall_mem_aErase {α β : Type} [DecidableEq α] (P : α × β → Prop)
    (l : List (α × β)) (k : α) (hl : ∀ p ∈ l, P p) : ∀ p ∈ aErase l k, P p :=
  fun p hp => hl p (mem_aErase l k p hp)

/-- Frames found under a key all satisfy the store invariant. -/
theorem getD_frames_ok (sto : Store) (d : String) (h : StoreOk sto) :
    ∀ f ∈ (alookup sto d).getD [], FrameOk f := by
  intro f hf
  cases hd : alookup sto d with
  | none => rw [hd] at hf; simp at hf
  | some l =>
      rw [hd] at hf
      simp only [Option.getD_some] at hf
      exact h (d, l) (alookup_mem _ _ _ hd) f hf

theorem StoreOk_enqueue (sto : Store) (d : String) (f : Frame)
    (h : StoreOk sto) (hf : FrameOk f) : StoreOk (storeEnqueue sto d f) := by
  unfold storeEnqueue
  apply forall_mem_aInsert _ _ _ _ h
  intro g hg
  rcases List.mem_append.mp hg with hg | hg
  · exact getD_frames_ok sto d h g hg
  · simp at hg
    rw [hg]
    exact hf

theorem StoreOk_requeue (sto : Store) (d : String) (f : Frame)
    (h : StoreOk sto) (hf : FrameOk f) : StoreOk (storeRequeue sto d f) := by
  unfold storeRequeue
  apply forall_mem_aInsert _ _ _ _ h
  intro g hg
  rcases List.mem_cons.mp hg with hg | hg
  · rw [hg]
    exact hf
  · exact getD_frames_ok sto d h g hg

theorem storeDequeue_ok (sto : Store) (d : String) (h : StoreOk sto) :
    StoreOk (storeDequeue sto d).2 ∧
    (∀ f, (storeDequeue sto d).1 = some f → FrameOk f) := by
  cases hd : alookup sto d with
  | none =>
      simp only [storeDequeue, hd]
      exact ⟨h, by intro f hf; simp at hf⟩
  | some l =>
      cases l with
      | nil =>
          simp only [storeDequeue, hd]
          exact ⟨h, by intro f hf; simp at hf⟩
      | cons g gs =>
          simp only [storeDequeue, hd]
          constructor
          · apply forall_mem_aInsert _ _ _ _ h
            intro x hx
            exact h (d, g :: gs) (alookup_mem _ _ _ hd) x (by simp [hx])
          · intro f hf
            simp only [Option.some.injEq] at hf
            rw [← hf]
            exact h (d, g :: gs) (alookup_mem _ _ _ hd) g (by simp)

theorem storeDrain_ok (sto : Store) (d : String) (h : StoreOk sto) :
    StoreOk (storeDrain sto d).2 ∧ (∀ f ∈ (storeDrain sto d).1, FrameOk f) := by
  constructor
  · apply forall_mem_aInsert _ _ _ _ h
    intro x hx
    simp at hx
  · exact getD_frames_ok sto d h

theorem sendToConn_ok (st : QMState) (c : Conn) (f : Frame)
    (h : StateOk st) (hf : FrameOk f) : OpOk st (sendToConn st c f) := by
  obtain ⟨h1, h2, h3⟩ := h
  by_cases hrel : c.reliable_subscriber = true
  · by_cases hpend : (alookup st.pending c).isSome = true
    · have heq : sendToConn st c f = { st := st, evs := [], err := some .runtimeError } := by
        simp [sendToConn, hrel, hpend]
      rw [heq]
      exact OpOk_mk _ _ ⟨h1, h2, h3⟩ (by intro e he; simp at he) rfl rfl
    · have heq : sendToConn st c f =
          { st := { st with pending := aInsert st.pending c f },
            evs := [.deliver c f], err := none } := by
        simp [sendToConn, hrel, hpend]
      rw [heq]
      apply OpOk_mk
      · exact ⟨h1, forall_mem_aInsert _ _ _ _ h2 hf, h3⟩
      · intro e he
        simp at he
        rw [he]
        exact hf
      · rfl
      · rfl
  · have hrelf : c.reliable_subscriber = false := by
      cases hx : c.reliable_subscriber
      · rfl
      · exact absurd hx hrel
    have heq : sendToConn st c f = { st := st, evs := [.deliver c f], err := none } := by
      simp [sendToConn, hrelf]
    rw [heq]
    apply OpOk_mk
    · exact ⟨h1, h2, h3⟩
    · intro e he
      simp at he
      rw [he]
      exact hf
    · rfl
    · rfl

theorem sendBacklog_ok (st : QMState) (c : Conn) (d : String)
    (h : StateOk st) : OpOk st (sendBacklog st c d) := by
  obtain ⟨hsto, hpend, htxf⟩ := h
  by_cases hrel : c.reliable_subscriber = true
  · rcases hdq : storeDequeue st.store d with ⟨of, sto⟩
    have hdo := storeDequeue_ok st.store d hsto
    rw [hdq] at hdo
    cases of with
    | some f =>
        have heq : sendBacklog st c d = sendToConn { st with store := sto } c f := by
          simp [sendBacklog, hrel, hdq]
        rw [heq]
        exact sendToConn_ok _ _ _ ⟨hdo.1, hpend, htxf⟩ (hdo.2 f rfl)
    | none =>
        have heq : sendBacklog st c d =
            { st := { st with store := sto }, evs := [], err := none } := by
          simp [sendBacklog, hrel, hdq]
        rw [heq]
        exact OpOk_mk _ _ ⟨hdo.1, hpend, htxf⟩ (by intro e he; simp at he) rfl rfl
  · have hrelf : c.reliable_subscriber = false := by
      cases hx : c.reliable_subscriber
      · rfl
      · exact absurd hx hrel
    have heq : sendBacklog st c d =
        { st := { st with store := (storeDrain st.store d).2 },
          evs := (storeDrain st.store d).1.map (Ev.deliver c), err := none } := by
      simp [sendBacklog, hrelf]
    rw [heq]
    have hdr := storeDrain_ok st.store d hsto
    apply OpOk_mk
    · exact ⟨hdr.1, hpend, htxf⟩
    · intro e he
      simp only [List.mem_map] at he
      obtain ⟨g, hg, rfl⟩ := he
      exact hdr.2 g hg
    · rfl
    · exact assignedIds_map_deliver c _

theorem sendSubscriberBacklog_ok (S : Sched) (st : QMState) (c : Conn)
    (h : StateOk st) : OpOk st (sendSubscriberBacklog S st c) := by
  obtain ⟨hsto, hpend, htxf⟩ := h
  by_cases he : (st.queues.filter
      (fun p => decide (c ∈ p.2) && storeHasFrames st.store p.1)).isEmpty = true
  · have heq : sendSubscriberBacklog S st c = { st := st, evs := [], err := none } := by
      simp [sendSubscriberBacklog, he]
    rw [heq]
    exact OpOk_mk _ _ ⟨hsto, hpend, htxf⟩ (by intro e he2; simp at he2) rfl rfl
  · cases hq : S.qsel (st.queues.filter
        (fun p => decide (c ∈ p.2) && storeHasFrames st.store p.1)) c with
    | none =>
        have heq : sendSubscriberBacklog S st c = { st := st, evs := [], err := none } := by
          simp [sendSubscriberBacklog, he, hq]
        rw [heq]
        exact OpOk_mk _ _ ⟨hsto, hpend, htxf⟩ (by intro e he2; simp at he2) rfl rfl
    | some d =>
        rcases hdq : storeDequeue st.store d with ⟨of, sto⟩
        have hdo := storeDequeue_ok st.store d hsto
        rw [hdq] at hdo
        cases of with
        | some f =>
            have heq : sendSubscriberBacklog S st c =
                sendToConn { st with store := sto } c f := by
              simp [sendSubscriberBacklog, he, hq, hdq]
            rw [heq]
            exact sendToConn_ok _ _ _ ⟨hdo.1, hpend, htxf⟩ (hdo.2 f rfl)
        | none =>
            have heq : sendSubscriberBacklog S st c =
                { st := { st with store := sto }, evs := [], err := none } := by
              simp [sendSubscriberBacklog, he, hq, hdq]
            rw [heq]
            exact OpOk_mk _ _ ⟨hdo.1, hpend, htxf⟩ (by intro e he2; simp at he2) rfl rfl

theorem subscribe_ok (st : QMState) (c : Conn) (d : String)
    (h : StateOk st) : OpOk st (subscribe st c d) :=
  sendBacklog_ok
    { st with queues := aInsert st.queues d (setAdd ((alookup st.queues d).getD []) c) }
    c d h

theorem unsubscribe_ok (st : QMState) (c : Conn) (d : String)
    (h : StateOk st) : OpOk st (unsubscribe st c d) := by
  simp only [unsubscribe]
  split <;> split <;> exact OpOk_mk _ _ h (by intro e he; simp at he) rfl rfl

theorem disconnect_ok (st : QMState) (c : Conn)
    (h : StateOk st) : OpOk st (disconnect st c) := by
  unfold disconnect
  split
  · refine OpOk_mk _ _ h ?_ rfl rfl
    intro e he
    simp at he
    rw [he]
    trivial
  · exact OpOk_mk _ _ h (by intro e he; simp at he) rfl rfl

theorem normalizeMsg_ok (st : QMState) (m : Frame) (h : StateOk st) :
    StateOk (normalizeMsg st m).2.1 ∧
    st.nextId ≤ (normalizeMsg st m).2.1.nextId ∧
    assignedIds (normalizeMsg st m).2.2
      = idsRange st.nextId (normalizeMsg st m).2.1.nextId ∧
    (∀ e ∈ (normalizeMsg st m).2.2, EvOk e) := by
  by_cases hid : (alookup m.headers "message-id").isSome = true
  · have heq : normalizeMsg st m = ({ m with cmd := "MESSAGE" }, st, []) := by
      simp [normalizeMsg, hid]
    rw [heq]
    exact ⟨h, le_refl _, (idsRange_self _).symm, by intro e he; simp at he⟩
  · have heq : normalizeMsg st m =
        ({ m with cmd := "MESSAGE",
                  headers := m.headers ++ [("message-id", idString st.nextId)] },
         { st with nextId := st.nextId + 1 },
         [Ev.assignedId (idString st.nextId)]) := by
      simp [normalizeMsg, hid]
    rw [heq]
    refine ⟨h, by simp, ?_, ?_⟩
    · show assignedIds [Ev.assignedId (idString st.nextId)]
        = idsRange st.nextId (st.nextId + 1)
      rw [idsRange_succ]
      rfl
    · intro e he
      simp at he
      rw [he]
      trivial

theorem send_ok (S : Sched) (st : QMState) (m : Frame) (h : StateOk st) :
    OpOk st (send S st m) := by
  by_cases hdt : destTruthy m.destination = true
  · obtain ⟨hs1, hle1, ha1, he1⟩ := normalizeMsg_ok st m h
    have hfok : FrameOk (normalizeMsg st m).1 :=
      ⟨normalizeMsg_cmd st m, normalizeMsg_message_id st m⟩
    simp only [send, hdt, if_true]
    split
    · refine ⟨?_, ?_, ?_, ?_⟩
      · exact ⟨StoreOk_enqueue _ _ _ hs1.1 hfok, hs1.2.1, hs1.2.2⟩
      · intro e hev
        rcases List.mem_append.mp hev with hev | hev
        · exact he1 e hev
        · simp at hev
          rw [hev]
          trivial
      · exact hle1
      · rw [assignedIds_append, ha1]
        have hz : assignedIds [Ev.enqueue (destOf m) (normalizeMsg st m).1] = [] := rfl
        rw [hz, List.append_nil]
    · have h2 := sendToConn_ok
        { (normalizeMsg st m).2.1 with
            queues := touchKey (normalizeMsg st m).2.1.queues (destOf m) }
        (S.sub (sendEligible (touchKey (normalizeMsg st m).2.1.queues (destOf m))
          (normalizeMsg st m).2.1.pending (destOf m)) (normalizeMsg st m).1)
        (normalizeMsg st m).1 ⟨hs1.1, hs1.2.1, hs1.2.2⟩ hfok
      obtain ⟨hb1, hb2, hb3, hb4⟩ := h2
      refine ⟨hb1, ?_, le_trans hle1 hb3, ?_⟩
      · intro e hev
        rcases List.mem_append.mp hev with hev | hev
        · exact he1 e hev
        · exact hb2 e hev
      · rw [assignedIds_append, ha1, hb4]
        exact idsRange_append _ _ _ hle1 hb3
  · have hdf : destTruthy m.destination = false := by
      cases hx : destTruthy m.destination
      · rfl
      · exact absurd hx hdt
    have heq : send S st m = { st := st, evs := [], err := some .valueError } := by
      simp [send, hdf]
    rw [heq]
    exact OpOk_mk _ _ h (by intro e he; simp at he) rfl rfl

theorem txf_inner_ok (l : List (Conn × List (String × List Frame))) (c : Conn)
    (h : TxfOk l) : ∀ q ∈ (alookup l c).getD [], ∀ g ∈ q.2, FrameOk g := by
  intro q hq g hg
  cases hc : alookup l c with
  | none => rw [hc] at hq; simp at hq
  | some v =>
      rw [hc] at hq
      simp only [Option.getD_some] at hq
      exact h (c, v) (alookup_mem _ _ _ hc) q hq g hg

theorem txf_list_ok (l : List (Conn × List (String × List Frame))) (c : Conn) (t : String)
    (h : TxfOk l) : ∀ g ∈ (alookup ((alookup l c).getD []) t).getD [], FrameOk g := by
  intro g hg
  cases ht : alookup ((alookup l c).getD []) t with
  | none => rw [ht] at hg; simp at hg
  | some lst =>
      rw [ht] at hg
      simp only [Option.getD_some] at hg
      exact txf_inner_ok l c h (t, lst) (alookup_mem _ _ _ ht) g hg

theorem TxfOk_insert2 (l : List (Conn × List (String × List Frame))) (c : Conn)
    (t : String) (newl : List Frame) (h : TxfOk l)
    (hnew : ∀ g ∈ newl, FrameOk g) :
    TxfOk (aInsert l c (aInsert ((alookup l c).getD []) t newl)) := by
  apply forall_mem_aInsert _ _ _ _ h
  apply forall_mem_aInsert _ _ _ _ (txf_inner_ok l c h)
  exact hnew


/-- The tail of `ack`: preliminary events over an intermediate state,
followed by the per-subscriber backlog drain. -/
theorem ack_tail_ok (S : Sched) (st stx : QMState) (c : Conn) (evs1 : List Ev)
    (hok : StateOk stx) (hnx : stx.nextId = st.nextId)
    (hevs : ∀ e ∈ evs1, EvOk e) (ha : assignedIds evs1 = []) :
    OpOk st { st := (sendSubscriberBacklog S stx c).st,
              evs := evs1 ++ (sendSubscriberBacklog S stx c).evs,
              err := (sendSubscriberBacklog S stx c).err } := by
  have hb := sendSubscriberBacklog_ok S stx c hok
  refine OpOk_seq st { st := stx, evs := evs1, err := none } _ _ ?_ hb
  exact OpOk_mk _ _ hok hevs hnx ha

theorem ack_ok (S : Sched) (st : QMState) (c : Conn) (f : Frame) (tx : Option String)
    (h : StateOk st) : OpOk st (ack S st c f tx) := by
  obtain ⟨hsto, hpend, htxf⟩ := h
  cases hp : alookup st.pending c with
  | none =>
      have heq : ack S st c f tx = { st := st, evs := [], err := none } := by
        simp [ack, hp]
      rw [heq]
      exact OpOk_mk _ _ ⟨hsto, hpend, htxf⟩ (by intro e he; simp at he) rfl rfl
  | some pf =>
      have hpf : FrameOk pf := hpend (c, pf) (alookup_mem _ _ _ hp)
      have hwarn : ∀ e ∈ [Ev.warn "unexpected message-id", Ev.requeue (destOf pf) pf],
          EvOk e := by
        intro e he
        simp at he
        rcases he with he | he <;> rw [he] <;> trivial
      have htx2 : TxfOk (aInsert st.transaction_frames c
          (aInsert ((alookup st.transaction_frames c).getD [])
            (tx.getD "") (((alookup ((alookup st.transaction_frames c).getD [])
              (tx.getD "")).getD []) ++ [pf]))) := by
        apply TxfOk_insert2 _ _ _ _ htxf
        intro g hg
        rcases List.mem_append.mp hg with hg | hg
        · exact txf_list_ok _ _ _ htxf g hg
        · simp at hg
          rw [hg]
          exact hpf
      by_cases hm : pf.message_id ≠ f.message_id
      · cases tx with
        | none =>
            have heq : ack S st c f none =
                { st := (sendSubscriberBacklog S
                    { st with
                      store := storeRequeue st.store (destOf pf) pf,
                      pending := aErase st.pending c } c).st,
                  evs := [Ev.warn "unexpected message-id", Ev.requeue (destOf pf) pf] ++
                    (sendSubscriberBacklog S
                      { st with
                        store := storeRequeue st.store (destOf pf) pf,
                        pending := aErase st.pending c } c).evs,
                  err := (sendSubscriberBacklog S
                    { st with
                      store := storeRequeue st.store (destOf pf) pf,
                      pending := aErase st.pending c } c).err } := by
              simp [ack, hp, hm]
            rw [heq]
            exact ack_tail_ok S st _ c _
              ⟨StoreOk_requeue _ _ _ hsto hpf, forall_mem_aErase _ _ _ hpend, htxf⟩
              rfl hwarn rfl
        | some t =>
            have heq : ack S st c f (some t) =
                { st := (sendSubscriberBacklog S
                    { st with
                      store := storeRequeue st.store (destOf pf) pf,
                      transaction_frames := aInsert st.transaction_frames c
                        (aInsert ((alookup st.transaction_frames c).getD []) t
                          (((alookup ((alookup st.transaction_frames c).getD [])
                            t).getD []) ++ [pf])),
                      pending := aErase st.pending c } c).st,
                  evs := [Ev.warn "unexpected message-id", Ev.requeue (destOf pf) pf] ++
                    (sendSubscriberBacklog S
                      { st with
                        store := storeRequeue st.store (destOf pf) pf,
                        transaction_frames := aInsert st.transaction_frames c
                          (aInsert ((alookup st.transaction_frames c).getD []) t
                            (((alookup ((alookup st.transaction_frames c).getD [])
                              t).getD []) ++ [pf])),
                        pending := aErase st.pending c } c).evs,
                  err := (sendSubscriberBacklog S
                    { st with
                      store := storeRequeue st.store (destOf pf) pf,
                      transaction_frames := aInsert st.transaction_frames c
                        (aInsert ((alookup st.transaction_frames c).getD []) t
                          (((alookup ((alookup st.transaction_frames c).getD [])
                            t).getD []) ++ [pf])),
                      pending := aErase st.pending c } c).err } := by
              simp [ack, hp, hm]
            rw [heq]
            refine ack_tail_ok S st _ c _ ⟨StoreOk_requeue _ _ _ hsto hpf,
              forall_mem_aErase _ _ _ hpend, ?_⟩ rfl hwarn rfl
            apply TxfOk_insert2 _ _ _ _ htxf
            intro g hg
            rcases List.mem_append.mp hg with hg | hg
            · exact txf_list_ok _ _ _ htxf g hg
            · simp at hg
              rw [hg]
              exact hpf
      · cases tx with
        | none =>
            have heq : ack S st c f none =
                { st := (sendSubscriberBacklog S
                    { st with pending := aErase st.pending c } c).st,
                  evs := (sendSubscriberBacklog S
                    { st with pending := aErase st.pending c } c).evs,
                  err := (sendSubscriberBacklog S
                    { st with pending := aErase st.pending c } c).err } := by
              simp [ack, hp, hm]
            rw [heq]
            obtain ⟨b1, b2, b3, b4⟩ := sendSubscriberBacklog_ok S
              { st with pending := aErase st.pending c } c
              ⟨hsto, forall_mem_aErase _ _ _ hpend, htxf⟩
            exact ⟨b1, b2, b3, b4⟩
        | some t =>
            have heq : ack S st c f (some t) =
                { st := (sendSubscriberBacklog S
                    { st with
                      transaction_frames := aInsert st.transaction_frames c
                        (aInsert ((alookup st.transaction_frames c).getD []) t
                          (((alookup ((alookup st.transaction_frames c).getD [])
                            t).getD []) ++ [pf])),
                      pending := aErase st.pending c } c).st,
                  evs := (sendSubscriberBacklog S
                    { st with
                      transaction_frames := aInsert st.transaction_frames c
                        (aInsert ((alookup st.transaction_frames c).getD []) t
                          (((alookup ((alookup st.transaction_frames c).getD [])
                            t).getD []) ++ [pf])),
                      pending := aErase st.pending c } c).evs,
                  err := (sendSubscriberBacklog S
                    { st with
                      transaction_frames := aInsert st.transaction_frames c
                        (aInsert ((alookup st.transaction_frames c).getD []) t
                          (((alookup ((alookup st.transaction_frames c).getD [])
                            t).getD []) ++ [pf])),
                      pending := aErase st.pending c } c).err } := by
              simp [ack, hp, hm]
            rw [heq]
            have hok3 : TxfOk (aInsert st.transaction_frames c
                (aInsert ((alookup st.transaction_frames c).getD []) t
                  (((alookup ((alookup st.transaction_frames c).getD []) t).getD [])
                    ++ [pf]))) := by
              apply TxfOk_insert2 _ _ _ _ htxf
              intro g hg
              rcases List.mem_append.mp hg with hg | hg
              · exact txf_list_ok _ _ _ htxf g hg
              · simp at hg
                rw [hg]
                exact hpf
            obtain ⟨b1, b2, b3, b4⟩ := sendSubscriberBacklog_ok S
              { st with
                transaction_frames := aInsert st.transaction_frames c
                  (aInsert ((alookup st.transaction_frames c).getD []) t
                    (((alookup ((alookup st.transaction_frames c).getD []) t).getD [])
                      ++ [pf])),
                pending := aErase st.pending c } c
              ⟨hsto, forall_mem_aErase _ _ _ hpend, hok3⟩
            exact ⟨b1, b2, b3, b4⟩

theorem sendList_ok (S : Sched) (st : QMState) (fs : List Frame)
    (h : StateOk st) : OpOk st (sendList S st fs) := by
  induction fs generalizing st with
  | nil => exact OpOk_mk _ _ h (by intro e he; simp [sendList] at he) rfl rfl
  | cons f rest ih =>
      have h1 := send_ok S st f h
      simp only [sendList]
      split
      · obtain ⟨a1, a2, a3, a4⟩ := h1
        exact ⟨a1, a2, a3, a4⟩
      · exact OpOk_seq _ _ _ _ h1 (ih (send S st f).st h1.1)

theorem resend_ok (S : Sched) (st : QMState) (c : Conn) (t : String)
    (h : StateOk st) : OpOk st (resend_transaction_frames S st c t) := by
  obtain ⟨hsto, hpend, htxf⟩ := h
  have htx : TxfOk (aInsert st.transaction_frames c
      (aInsert ((alookup st.transaction_frames c).getD []) t
        ((alookup ((alookup st.transaction_frames c).getD []) t).getD []))) :=
    TxfOk_insert2 _ _ _ _ htxf (txf_list_ok _ _ _ htxf)
  exact sendList_ok S
    { st with
      transaction_frames := aInsert st.transaction_frames c
        (aInsert ((alookup st.transaction_frames c).getD []) t
          ((alookup ((alookup st.transaction_frames c).getD []) t).getD [])) }
    ((alookup ((alookup st.transaction_frames c).getD []) t).getD [])
    ⟨hsto, hpend, htx⟩

theorem clear_ok (st : QMState) (c : Conn) (t : String)
    (h : StateOk st) : OpOk st (clear_transaction_frames st c t) := by
  obtain ⟨hsto, hpend, htxf⟩ := h
  simp only [clear_transaction_frames]
  split
  · refine OpOk_mk _ _ ?_ (by intro e he; simp at he) rfl rfl
    exact ⟨hsto, hpend, forall_mem_aInsert _ _ _ _ htxf
      (forall_mem_aErase _ _ _ (txf_inner_ok _ _ htxf))⟩
  · refine OpOk_mk _ _ ?_ (by intro e he; simp at he) rfl rfl
    exact ⟨hsto, hpend, forall_mem_aInsert _ _ _ _ htxf (txf_inner_ok _ _ htxf)⟩

theorem stepOp_ok (S : Sched) (st : QMState) (o : Op) (h : StateOk st) :
    OpOk st (stepOp S st o) := by
  cases o with
  | sub c d => exact subscribe_ok st c d h
  | unsub c d => exact unsubscribe_ok st c d h
  | snd m => exact send_ok S st m h
  | ak c f tx => exact ack_ok S st c f tx h
  | disc c => exact disconnect_ok st c h
  | resend c t => exact resend_ok S st c t h
  | clear c t => exact clear_ok st c t h

theorem runOps_ok (S : Sched) (ops : List Op) (st : QMState) (h : StateOk st) :
    StateOk (runOps S st ops).1 ∧ st.nextId ≤ (runOps S st ops).1.nextId ∧
    (∀ e ∈ (runOps S st ops).2, EvOk e) ∧
    assignedIds (runOps S st ops).2 = idsRange st.nextId (runOps S st ops).1.nextId := by
  induction ops generalizing st with
  | nil =>
      refine ⟨h, le_refl _, ?_, ?_⟩
      · intro e he
        simp [runOps] at he
      · simp [runOps, assignedIds, idsRange_self]
  | cons o os ih =>
      obtain ⟨a1, a2, a3, a4⟩ := stepOp_ok S st o h
      obtain ⟨b1, b2, b3, b4⟩ := ih (stepOp S st o).st a1
      simp only [runOps]
      refine ⟨b1, le_trans a3 b2, ?_, ?_⟩
      · intro e hev
        rcases List.mem_append.mp hev with hev | hev
        · exact a2 e hev
        · exact b3 e hev
      · rw [assignedIds_append, a4, b4, idsRange_append _ _ _ a3 b2]

theorem initState_ok : StateOk initState := by
  refine ⟨?_, ?_, ?_⟩ <;> intro p hp <;> simp [initState] at hp

/-- C6: every frame entering `send` gets its command tag set to MESSAGE and,
when its header mapping lacks a message-id, a freshly generated identifier
(the uuid4 call modelled as an injective fresh supply); consequently, in
every run of public operations from the initial state, every frame handed
to a `deliver` call is normalized (MESSAGE tag, message-id present), and
the generated ids of the run are pairwise distinct. -/
theorem C6_message_ids (S : Sched) (ops : List Op) (st : QMState) (m : Frame) :
    ((normalizeMsg st m).1.cmd = "MESSAGE" ∧
      ((normalizeMsg st m).1.message_id).isSome = true) ∧
    (∀ e ∈ (runOps S initState ops).2, EvOk e) ∧
    (assignedIds (runOps S initState ops).2).Nodup := by
  obtain ⟨_, _, h3, h4⟩ := runOps_ok S ops initState initState_ok
  refine ⟨⟨normalizeMsg_cmd st m, normalizeMsg_message_id st m⟩, h3, ?_⟩
  rw [h4]
  exact idsRange_nodup _ _

end CoilMQ
